import Mathlib

/-!
Verification of the decode-and-score layer of the utterance-to-phoneme
repository (`customized/helper.py`, `customized/phases.py`,
`customized/ctcdecodehandler.py`).

The embedding models tensors of label indices as nested lists of `Nat`,
the phoneme map as a `List String` (the repository's `phoneme_list.py` /
`phoneme_details.py` modules are not part of the sources; the spec
describes the map only as a fixed ordered sequence of symbols, so the
map is taken as a parameter), Python indexing as `Option`-returning
lookup, and the external `Levenshtein.distance` library call by an
executable edit-distance function together with a proof that it computes
the minimum number of single-character insertions, deletions and
substitutions.
-/

/-- One edit alignment between two lists, counting its cost: `Tr xs ys n`
holds when `xs` can be transformed into `ys` using exactly `n`
single-character insertions, deletions and substitutions (characters kept
unchanged are free). -/
inductive Tr {α : Type} : List α → List α → Nat → Prop where
  | nil : Tr [] [] 0
  | copy (c : α) {xs ys : List α} {n : Nat} :
      Tr xs ys n → Tr (c :: xs) (c :: ys) n
  | subst (a b : α) {xs ys : List α} {n : Nat} :
      Tr xs ys n → Tr (a :: xs) (b :: ys) (n + 1)
  | ins (b : α) {xs ys : List α} {n : Nat} :
      Tr xs ys n → Tr xs (b :: ys) (n + 1)
  | del (a : α) {xs ys : List α} {n : Nat} :
      Tr xs ys n → Tr (a :: xs) ys (n + 1)

/-- Inner step of the edit-distance recursion: given the distance
function `prev` for the tail of the first list, compute distances from
the full first list. Structured so that the whole definition is
structurally recursive and computes by `decide`/`rfl`. -/
def levStep {α : Type} [DecidableEq α] (x : α) (prev : List α → Nat) :
    List α → Nat
  | [] => prev [] + 1
  | y :: ys =>
    if x = y then prev ys
    else 1 + min (prev (y :: ys)) (min (levStep x prev ys) (prev ys))

/-- Levenshtein edit distance between two lists, by the classic
recurrence. This is the model of the external string edit-distance
capability (`Levenshtein.distance`) consumed by `calculate_distances`;
`lev_isLeast` below proves it is the minimum number of single-character
insertions, deletions and substitutions. -/
def lev {α : Type} [DecidableEq α] : List α → List α → Nat
  | [], ys => ys.length
  | x :: xs, ys => levStep x (lev xs) ys

theorem lev_nil_left {α : Type} [DecidableEq α] (ys : List α) :
    lev [] ys = ys.length := rfl

theorem lev_cons_nil {α : Type} [DecidableEq α] (x : α) (xs : List α) :
    lev (x :: xs) [] = lev xs [] + 1 := rfl

theorem lev_cons_cons {α : Type} [DecidableEq α] (x y : α) (xs ys : List α) :
    lev (x :: xs) (y :: ys) =
      if x = y then lev xs ys
      else 1 + min (lev xs (y :: ys)) (min (lev (x :: xs) ys) (lev xs ys)) :=
  rfl

theorem lev_nil_right {α : Type} [DecidableEq α] (xs : List α) :
    lev xs [] = xs.length := by
  induction xs with
  | nil => rfl
  | cons x xs ih => rw [lev_cons_nil, ih]; rfl

theorem lev_self {α : Type} [DecidableEq α] (xs : List α) :
    lev xs xs = 0 := by
  induction xs with
  | nil => rfl
  | cons x xs ih => rw [lev_cons_cons, if_pos rfl]; exact ih

theorem lev_symm_aux {α : Type} [DecidableEq α] :
    ∀ n : Nat, ∀ xs ys : List α, xs.length + ys.length ≤ n →
      lev xs ys = lev ys xs := by
  intro n
  induction n with
  | zero =>
    intro xs ys h
    match xs, ys with
    | [], [] => rfl
    | x :: xs, ys => simp only [List.length_cons] at h; omega
    | [], y :: ys => simp only [List.length_cons] at h; omega
  | succ n ih =>
    intro xs ys h
    match xs, ys with
    | [], ys => rw [lev_nil_left, lev_nil_right]
    | x :: xs, [] => rw [lev_nil_left, lev_nil_right]
    | x :: xs, y :: ys =>
      simp only [List.length_cons] at h
      rw [lev_cons_cons, lev_cons_cons]
      by_cases hxy : x = y
      · subst hxy
        rw [if_pos rfl, if_pos rfl]
        exact ih xs ys (by omega)
      · rw [if_neg hxy, if_neg (fun hyx => hxy hyx.symm)]
        have h1 : lev xs (y :: ys) = lev (y :: ys) xs :=
          ih _ _ (by simp only [List.length_cons]; omega)
        have h2 : lev (x :: xs) ys = lev ys (x :: xs) :=
          ih _ _ (by simp only [List.length_cons]; omega)
        have h3 : lev xs ys = lev ys xs := ih _ _ (by omega)
        omega

theorem lev_symm {α : Type} [DecidableEq α] (xs ys : List α) :
    lev xs ys = lev ys xs :=
  lev_symm_aux (xs.length + ys.length) xs ys le_rfl

theorem lev_bound_aux {α : Type} [DecidableEq α] :
    ∀ n : Nat, ∀ (xs ys : List α) (a : α), xs.length + ys.length ≤ n →
      lev (a :: xs) ys ≤ lev xs ys + 1 ∧ lev xs ys ≤ lev (a :: xs) ys + 1 := by
  intro n
  induction n with
  | zero =>
    intro xs ys a h
    match xs, ys with
    | [], [] =>
      refine ⟨?_, ?_⟩ <;> · rw [lev_nil_right, lev_nil_right]; simp
    | x :: xs, ys => simp only [List.length_cons] at h; omega
    | [], y :: ys => simp only [List.length_cons] at h; omega
  | succ n ih =>
    intro xs ys a h
    match ys with
    | [] =>
      refine ⟨?_, ?_⟩ <;>
        · rw [lev_nil_right, lev_nil_right]
          simp only [List.length_cons]
          omega
    | y :: ys' =>
      simp only [List.length_cons] at h
      constructor
      · by_cases hay : a = y
        · subst hay
          rw [lev_cons_cons, if_pos rfl]
          have s1 : lev xs ys' = lev ys' xs := lev_symm xs ys'
          have s2 : lev xs (a :: ys') = lev (a :: ys') xs := lev_symm xs (a :: ys')
          have hb : lev ys' xs ≤ lev (a :: ys') xs + 1 :=
            (ih ys' xs a (by omega)).2
          omega
        · rw [lev_cons_cons, if_neg hay]
          have := min_le_left (lev xs (y :: ys'))
            (min (lev (a :: xs) ys') (lev xs ys'))
          omega
      · by_cases hay : a = y
        · subst hay
          rw [lev_cons_cons, if_pos rfl]
          have s1 : lev xs ys' = lev ys' xs := lev_symm xs ys'
          have s2 : lev xs (a :: ys') = lev (a :: ys') xs := lev_symm xs (a :: ys')
          have hb : lev (a :: ys') xs ≤ lev ys' xs + 1 :=
            (ih ys' xs a (by omega)).1
          omega
        · rw [lev_cons_cons, if_neg hay]
          have s1 : lev xs (y :: ys') = lev (y :: ys') xs := lev_symm xs (y :: ys')
          have s2 : lev xs ys' = lev ys' xs := lev_symm xs ys'
          have h1 : lev (y :: ys') xs ≤ lev ys' xs + 1 :=
            (ih ys' xs y (by omega)).1
          have h2 : lev xs ys' ≤ lev (a :: xs) ys' + 1 :=
            (ih xs ys' a (by omega)).2
          omega

theorem lev_del_le {α : Type} [DecidableEq α] (a : α) (xs ys : List α) :
    lev (a :: xs) ys ≤ lev xs ys + 1 :=
  (lev_bound_aux (xs.length + ys.length) xs ys a le_rfl).1

theorem lev_ins_le {α : Type} [DecidableEq α] (b : α) (xs ys : List α) :
    lev xs (b :: ys) ≤ lev xs ys + 1 := by
  rw [lev_symm xs (b :: ys), lev_symm xs ys]
  exact lev_del_le b ys xs

theorem lev_subst_le {α : Type} [DecidableEq α] (a b : α) (xs ys : List α) :
    lev (a :: xs) (b :: ys) ≤ lev xs ys + 1 := by
  rw [lev_cons_cons]
  by_cases hab : a = b
  · rw [if_pos hab]; omega
  · rw [if_neg hab]
    have h1 := min_le_right (lev (a :: xs) ys) (lev xs ys)
    have h2 := min_le_right (lev xs (b :: ys))
      (min (lev (a :: xs) ys) (lev xs ys))
    omega

theorem lev_le_of_Tr {α : Type} [DecidableEq α] {xs ys : List α} {n : Nat}
    (h : Tr xs ys n) : lev xs ys ≤ n := by
  induction h with
  | nil => exact Nat.le_refl 0
  | copy c h ih => rw [lev_cons_cons, if_pos rfl]; exact ih
  | subst a b h ih => exact le_trans (lev_subst_le a b _ _) (by omega)
  | ins b h ih => exact le_trans (lev_ins_le b _ _) (by omega)
  | del a h ih => exact le_trans (lev_del_le a _ _) (by omega)

theorem Tr_nil_left {α : Type} (ys : List α) : Tr ([] : List α) ys ys.length := by
  induction ys with
  | nil => exact Tr.nil
  | cons y ys ih => exact Tr.ins y ih

theorem Tr_nil_right {α : Type} (xs : List α) : Tr xs ([] : List α) xs.length := by
  induction xs with
  | nil => exact Tr.nil
  | cons x xs ih => exact Tr.del x ih

theorem Tr_lev_aux {α : Type} [DecidableEq α] :
    ∀ n : Nat, ∀ xs ys : List α, xs.length + ys.length ≤ n →
      Tr xs ys (lev xs ys) := by
  intro n
  induction n with
  | zero =>
    intro xs ys h
    match xs, ys with
    | [], [] => exact Tr.nil
    | x :: xs, ys => simp only [List.length_cons] at h; omega
    | [], y :: ys => simp only [List.length_cons] at h; omega
  | succ n ih =>
    intro xs ys h
    match xs, ys with
    | [], ys => exact Tr_nil_left ys
    | x :: xs, [] => rw [lev_nil_right]; exact Tr_nil_right _
    | x :: xs, y :: ys =>
      simp only [List.length_cons] at h
      rw [lev_cons_cons]
      by_cases hxy : x = y
      · rw [if_pos hxy]
        subst hxy
        exact Tr.copy x (ih xs ys (by omega))
      · rw [if_neg hxy]
        rcases min_choice (lev xs (y :: ys))
            (min (lev (x :: xs) ys) (lev xs ys)) with h1 | h1
        · rw [h1, Nat.add_comm]
          exact Tr.del x (ih xs (y :: ys) (by simp only [List.length_cons]; omega))
        · rcases min_choice (lev (x :: xs) ys) (lev xs ys) with h2 | h2
          · rw [h1, h2, Nat.add_comm]
            exact Tr.ins y (ih (x :: xs) ys (by simp only [List.length_cons]; omega))
          · rw [h1, h2, Nat.add_comm]
            exact Tr.subst x y (ih xs ys (by omega))

theorem Tr_lev {α : Type} [DecidableEq α] (xs ys : List α) :
    Tr xs ys (lev xs ys) :=
  Tr_lev_aux (xs.length + ys.length) xs ys le_rfl

/-- `lev xs ys` is the least cost of any edit alignment between `xs` and
`ys`: it really is the Levenshtein distance, the minimum number of
single-character insertions, deletions and substitutions transforming
`xs` into `ys`. -/
theorem lev_isLeast {α : Type} [DecidableEq α] (xs ys : List α) :
    IsLeast {n | Tr xs ys n} (lev xs ys) :=
  ⟨Tr_lev xs ys, fun _ hn => lev_le_of_Tr hn⟩

theorem lev_eq_sInf {α : Type} [DecidableEq α] (xs ys : List α) :
    lev xs ys = sInf {n | Tr xs ys n} :=
  ((lev_isLeast xs ys).csInf_eq).symm

/-- Apply a fallible function to every element in order, failing as soon
as one application fails: the model of a Python list comprehension or
accumulating `for` loop whose body may raise. -/
def mapOpt {α β : Type} (f : α → Option β) : List α → Option (List β)
  | [] => some []
  | a :: rest =>
    (f a).bind fun b => (mapOpt f rest).bind fun bs => some (b :: bs)

/-- Model of the external `Levenshtein.distance(a, b)` string
edit-distance capability consumed by `calculate_distances`
(helper.py line 60): the Levenshtein distance between the two strings'
character sequences. -/
def distance (a b : String) : Nat :=
  lev a.data b.data

/-- helper.py lines 9-19, `convert_to_phonemes(i, beam_results, out_lens,
phoneme_list)`: select batch element `i`'s top beam (`j = 0`), truncate it
to the reported output length `out_lens[i][j]`, and map every index
through the phoneme map. Python indexing failures (`i`/`j` out of range,
a phoneme index out of the map's bounds) are modelled by `none`; Python's
slice `[:k]` never fails and is `List.take`. The map's contents live in
the repository's `phoneme_list` module, which is not among the sources,
so the map is a parameter. -/
def convert_to_phonemes (i : Nat) (beam_results : List (List (List Nat)))
    (out_lens : List (List Nat)) (phoneme_list : List String) :
    Option (List String) :=
  (beam_results[i]?).bind fun beams_i =>
    (beams_i[0]?).bind fun beam =>
      (out_lens[i]?).bind fun lens_i =>
        (lens_i[0]?).bind fun len =>
          mapOpt (fun idx => phoneme_list[idx]?) (beam.take len)

/-- helper.py lines 22-25, `target_to_phonemes(target, phoneme_list)`:
map every index of the flattened target row through the phoneme map,
with no truncation. -/
def target_to_phonemes (target : List Nat) (phoneme_list : List String) :
    Option (List String) :=
  mapOpt (fun idx => phoneme_list[idx]?) target

/-- helper.py lines 28-29, `convert_to_string(converted_list)`:
`''.join`, concatenation with no separator. -/
def convert_to_string (converted_list : List String) : String :=
  String.join converted_list

/-- helper.py lines 47-70, `calculate_distances(beam_results, out_lens,
targets)`: for each batch element, decode the top beam and the whole
target row into strings and sum the pairwise Levenshtein distances.
`n_batches` is `beam_results.shape[0]`; `targets[i]` fails when `i` is
out of range. -/
def calculate_distances (beam_results : List (List (List Nat)))
    (out_lens : List (List Nat)) (targets : List (List Nat))
    (phoneme_list : List String) : Option Nat :=
  let n := beam_results.length
  (mapOpt (fun i =>
    (convert_to_phonemes i beam_results out_lens phoneme_list).bind
      fun out_converted => (targets[i]?).bind fun target_i =>
        (target_to_phonemes target_i phoneme_list).bind fun target_converted =>
          let out_str := convert_to_string out_converted
          let target_str := convert_to_string target_converted
          some (distance out_str target_str)) (List.range n)).bind
    fun distances => some distances.sum

/-- The spec's `score(decoded_strings, target_strings)` operation: the
summing step of `calculate_distances` (helper.py lines 60 and 70) on the
already-decoded string pairs. -/
def score (decoded_strings target_strings : List String) : Nat :=
  (List.zipWith (fun a b => distance a b) decoded_strings target_strings).sum

/-- A rank-3 tensor, as used for the model output of shape
(dim0, dim1, dim2) = (time, batch, classes). Entries are read through
`entry`; the type of the numeric entries is a parameter since the
decode layer never computes on them. -/
structure Tensor3 (α : Type) where
  dim0 : Nat
  dim1 : Nat
  dim2 : Nat
  entry : Nat → Nat → Nat → α

/-- `torch.transpose(out, 0, 1)`: swap the first two dimensions; the
entry at (a, b, c) of the result is the entry at (b, a, c) of the
input. The input tensor is not modified (the model is pure). -/
def torch_transpose01 {α : Type} (t : Tensor3 α) : Tensor3 α :=
  { dim0 := t.dim1, dim1 := t.dim0, dim2 := t.dim2,
    entry := fun a b c => t.entry b a c }

/-- The external beam-search decoder capability: `decode` returns the
quadruple (beam_results, beam_scores, timesteps, out_lens). Scores have
an abstract type `σ`. -/
structure CTCDecoder (α σ : Type) where
  decode : Tensor3 α →
    List (List (List Nat)) × List (List σ) × List (List (List Nat)) ×
      List (List Nat)

/-- helper.py lines 32-44, `decode_output(out, ctcdecode)`: transpose
the frames from (time, batch, classes) to (batch, time, classes) and
return the decoder's four results unchanged. -/
def decode_output {α σ : Type} (out : Tensor3 α) (ctcdecode : CTCDecoder α σ) :
    List (List (List Nat)) × List (List σ) × List (List (List Nat)) ×
      List (List Nat) :=
  ctcdecode.decode (torch_transpose01 out)

/-- Modelled from the spec: `out_to_phonemes` is imported by phases.py
(line 11) and called by `Testing.test_model` (line 222), but helper.py
does not define it and no module in the sources does. The spec states
that the test path applies the same top-beam (`j = 0`) symbol
conversion as the scoring path — truncate the top beam to its reported
length and map indices through the phoneme map — so it is modelled as
that conversion. -/
def out_to_phonemes (i : Nat) (beam_results : List (List (List Nat)))
    (out_lens : List (List Nat)) (phoneme_map : List String) :
    Option (List String) :=
  convert_to_phonemes i beam_results out_lens phoneme_map

/-- phases.py lines 220-224 (`Testing.test_model`): for each batch
element, convert the decoded top beam to a string and collect the
results, `n = beam_results.shape[0]`. -/
def test_model_strings (beam_results : List (List (List Nat)))
    (out_lens : List (List Nat)) (phoneme_map : List String) :
    Option (List String) :=
  mapOpt (fun i =>
    (out_to_phonemes i beam_results out_lens phoneme_map).bind
      fun out_converted => some (convert_to_string out_converted))
    (List.range beam_results.length)

/-- The external `ctcdecode.CTCBeamDecoder` constructor's configuration,
as received by it (ctcdecodehandler.py lines 11-22): the record of the
arguments `get_ctcdecoder` forwards. Float-valued parameters (`alpha`,
`beta`, `cutoff_prob`) are pass-through values of an abstract type `F`. -/
structure CTCBeamDecoder (F : Type) where
  labels : List String
  model_path : Option String
  alpha : F
  beta : F
  cutoff_top_n : Nat
  cutoff_prob : F
  beam_width : Nat
  num_processes : Nat
  blank_id : Nat
  log_probs_input : Bool

/-- ctcdecodehandler.py lines 11-22, `get_ctcdecoder(...)`: construct
the external beam decoder with the given parameters. -/
def get_ctcdecoder {F : Type} (labels : List String)
    (model_path : Option String) (alpha beta : F) (cutoff_top_n : Nat)
    (cutoff_prob : F) (beam_width num_processes blank_id : Nat)
    (log_probs_input : Bool) : CTCBeamDecoder F :=
  { labels := labels, model_path := model_path, alpha := alpha,
    beta := beta, cutoff_top_n := cutoff_top_n, cutoff_prob := cutoff_prob,
    beam_width := beam_width, num_processes := num_processes,
    blank_id := blank_id, log_probs_input := log_probs_input }

/-- State of a `CTCDecodeHandler` after `__init__`
(ctcdecodehandler.py lines 27-43). -/
structure CTCDecodeHandler (F : Type) where
  model_path : Option String
  alpha : F
  beta : F
  cutoff_top_n : Nat
  cutoff_prob : F
  beam_width : Nat
  blank_id : Nat
  log_probs_input : Bool
  num_processes : Nat
  labels : List String

/-- ctcdecodehandler.py lines 27-43, `CTCDecodeHandler.__init__`:
`model_path` becomes `None` when the string `'None'` is passed,
`num_processes` is set to `multiprocessing.cpu_count()` (the host's
processing-unit count, here the `cpu_count` parameter of the
environment), and `labels` to the process-wide phoneme map
(`pl.PHONEME_MAP`, whose defining module is not among the sources, so
it is a parameter). -/
def CTCDecodeHandler.init {F : Type} (cpu_count : Nat)
    (PHONEME_MAP : List String) (model_path : String) (alpha beta : F)
    (cutoff_top_n : Nat) (cutoff_prob : F) (beam_width blank_id : Nat)
    (log_probs_input : Bool) : CTCDecodeHandler F :=
  { model_path := if model_path = "None" then none else some model_path,
    alpha := alpha, beta := beta, cutoff_top_n := cutoff_top_n,
    cutoff_prob := cutoff_prob, beam_width := beam_width,
    blank_id := blank_id, log_probs_input := log_probs_input,
    num_processes := cpu_count, labels := PHONEME_MAP }

/-- ctcdecodehandler.py lines 45-48, `CTCDecodeHandler.ctcdecoder`:
forward every stored field to `get_ctcdecoder`. -/
def CTCDecodeHandler.ctcdecoder {F : Type} (h : CTCDecodeHandler F) :
    CTCBeamDecoder F :=
  get_ctcdecoder h.labels h.model_path h.alpha h.beta h.cutoff_top_n
    h.cutoff_prob h.beam_width h.num_processes h.blank_id h.log_probs_input

/-- The top-level names helper.py defines (helper.py lines 9, 22, 28,
32, 47). -/
def helper_defined_names : List String :=
  ["convert_to_phonemes", "target_to_phonemes", "convert_to_string",
   "decode_output", "calculate_distances"]

/-- The names phases.py line 11 imports from `customized.helper`. -/
def phases_imported_from_helper : List String :=
  ["out_to_phonemes", "convert_to_string", "decode_output",
   "calculate_distances"]

/-- Number of parameters of `decode_output` (helper.py line 32:
`out`, `ctcdecode`). -/
def decode_output_param_count : Nat := 2

/-- Number of arguments `Evaluation.evaluate_model` passes to
`decode_output` (phases.py line 148: `out`, `ctcdecode`,
`lengths_out`). -/
def evaluate_model_decode_output_arg_count : Nat := 3

/-- Number of arguments `Testing.test_model` passes to `decode_output`
(phases.py line 217: `out`, `ctcdecode`, `input_lengths`). -/
def test_model_decode_output_arg_count : Nat := 3

theorem mapOpt_nil {α β : Type} (f : α → Option β) : mapOpt f [] = some [] :=
  rfl

theorem mapOpt_cons {α β : Type} (f : α → Option β) (a : α) (l : List α) :
    mapOpt f (a :: l) =
      (f a).bind (fun b => (mapOpt f l).bind (fun bs => some (b :: bs))) :=
  rfl

theorem mapOpt_eq_some_map {α β : Type} (f : α → Option β) (g : α → β) :
    ∀ l : List α, (∀ a ∈ l, f a = some (g a)) → mapOpt f l = some (l.map g) := by
  intro l
  induction l with
  | nil => intro _; rfl
  | cons a l ih =>
    intro h
    have ha : f a = some (g a) := h a (List.mem_cons_self a l)
    have hl : mapOpt f l = some (l.map g) :=
      ih (fun x hx => h x (List.mem_cons_of_mem a hx))
    rw [mapOpt_cons, ha, hl]
    rfl

theorem mapOpt_eq_none_iff {α β : Type} (f : α → Option β) :
    ∀ l : List α, (mapOpt f l = none ↔ ∃ a ∈ l, f a = none) := by
  intro l
  induction l with
  | nil => simp [mapOpt_nil]
  | cons a l ih =>
    rw [mapOpt_cons]
    cases hfa : f a with
    | none => simp [hfa]
    | some b =>
      cases hml : mapOpt f l with
      | none =>
        simp only [Option.some_bind, Option.none_bind, true_iff]
        rcases ih.mp hml with ⟨x, hx, hfx⟩
        exact ⟨x, List.mem_cons_of_mem a hx, hfx⟩
      | some bs =>
        simp only [Option.some_bind, Option.bind_some]
        constructor
        · intro h; cases h
        · rintro ⟨x, hx, hfx⟩
          rcases List.mem_cons.mp hx with rfl | hx'
          · rw [hfa] at hfx; cases hfx
          · have : mapOpt f l = none := ih.mpr ⟨x, hx', hfx⟩
            rw [hml] at this; cases this

theorem mapOpt_some_length {α β : Type} (f : α → Option β) :
    ∀ (l : List α) (bs : List β), mapOpt f l = some bs → bs.length = l.length := by
  intro l
  induction l with
  | nil => intro bs h; cases h; rfl
  | cons a l ih =>
    intro bs h
    rw [mapOpt_cons] at h
    cases hfa : f a with
    | none => rw [hfa] at h; cases h
    | some b =>
      rw [hfa] at h
      cases hml : mapOpt f l with
      | none => rw [hml] at h; cases h
      | some bs' =>
        rw [hml] at h
        cases h
        simp [ih bs' hml]

theorem convert_to_phonemes_eq (i : Nat) (bm : List (List (List Nat)))
    (ol : List (List Nat)) (pl : List String) :
    convert_to_phonemes i bm ol pl =
      (bm[i]?.bind (fun r => r[0]?)).bind (fun beam =>
        (ol[i]?.bind (fun r => r[0]?)).bind (fun len =>
          mapOpt (fun idx => pl[idx]?) (beam.take len))) := by
  unfold convert_to_phonemes
  cases bm[i]? with
  | none => rfl
  | some r =>
    simp only [Option.some_bind]
    cases r[0]? with
    | none => rfl
    | some beam =>
      simp only [Option.some_bind]
      cases ol[i]? with
      | none => rfl
      | some s =>
        simp only [Option.some_bind]

theorem mapOpt_congr {α β : Type} (f g : α → Option β) :
    ∀ l : List α, (∀ a ∈ l, f a = g a) → mapOpt f l = mapOpt g l := by
  intro l
  induction l with
  | nil => intro _; rfl
  | cons a l ih =>
    intro h
    rw [mapOpt_cons, mapOpt_cons, h a (List.mem_cons_self a l),
      ih (fun x hx => h x (List.mem_cons_of_mem a hx))]

theorem mapOpt_append {α β : Type} (f : α → Option β) :
    ∀ l₁ l₂ : List α,
      mapOpt f (l₁ ++ l₂) =
        (mapOpt f l₁).bind fun a => (mapOpt f l₂).bind fun b => some (a ++ b) := by
  intro l₁ l₂
  induction l₁ with
  | nil =>
    rw [List.nil_append, mapOpt_nil, Option.some_bind]
    cases mapOpt f l₂ with
    | none => rfl
    | some b => rfl
  | cons a l ih =>
    rw [List.cons_append, mapOpt_cons, mapOpt_cons, ih]
    cases f a with
    | none => rfl
    | some b =>
      simp only [Option.some_bind]
      cases mapOpt f l with
      | none => rfl
      | some bs =>
        simp only [Option.some_bind]
        cases mapOpt f l₂ with
        | none => rfl
        | some cs => rfl

theorem mapOpt_mem {α β : Type} (f : α → Option β) :
    ∀ (l : List α) (bs : List β), mapOpt f l = some bs →
      ∀ b ∈ bs, ∃ a ∈ l, f a = some b := by
  intro l
  induction l with
  | nil =>
    intro bs h b hb
    cases h
    cases hb
  | cons a l ih =>
    intro bs h b hb
    rw [mapOpt_cons] at h
    cases hfa : f a with
    | none => rw [hfa] at h; cases h
    | some v =>
      rw [hfa] at h
      cases hml : mapOpt f l with
      | none => rw [hml] at h; cases h
      | some vs =>
        rw [hml] at h
        simp only [Option.some_bind] at h
        cases h
        rcases List.mem_cons.mp hb with rfl | hb'
        · exact ⟨a, List.mem_cons_self a l, hfa⟩
        · rcases ih vs hml b hb' with ⟨x, hx, hfx⟩
          exact ⟨x, List.mem_cons_of_mem a hx, hfx⟩

theorem foldl_append_length : ∀ (l : List String) (acc : String),
    (l.foldl (fun a b => a ++ b) acc).length =
      acc.length + (l.map String.length).sum := by
  intro l
  induction l with
  | nil => intro acc; simp
  | cons s l ih =>
    intro acc
    simp only [List.foldl_cons, List.map_cons, List.sum_cons, ih,
      String.length_append]
    omega

theorem convert_to_string_length (l : List String) :
    (convert_to_string l).length = (l.map String.length).sum := by
  have := foldl_append_length l ""
  simpa [convert_to_string, String.join] using this

theorem option_eq_some_getD {α : Type} (o : Option α) (d : α) (h : o.isSome) :
    o = some (o.getD d) := by
  cases o with
  | none => cases h
  | some v => rfl

theorem sum_map_length_one (l : List String) (h : ∀ s ∈ l, s.length = 1) :
    (l.map String.length).sum = l.length := by
  induction l with
  | nil => rfl
  | cons s l ih =>
    simp only [List.map_cons, List.sum_cons, List.length_cons]
    rw [h s (List.mem_cons_self s l),
      ih (fun x hx => h x (List.mem_cons_of_mem s hx))]
    omega

/-- Claim C2: for every candidate index sequence, reported valid length
`L` and phoneme map covering the sequence's first `L` indices, the symbol
conversion (`convert_to_phonemes` followed by `convert_to_string`)
returns the separator-free concatenation of the phoneme-map symbols of
the first `L` indices; in particular with map `["A","B","C"]`, candidate
`[0,1,2]` and length `3` the decoded string is `"ABC"`. -/
theorem symbol_conversion_concatenates (i : Nat) (bm : List (List (List Nat)))
    (ol : List (List Nat)) (pl : List String) (cand : List Nat) (L : Nat)
    (hb : bm[i]?.bind (fun r => r[0]?) = some cand)
    (hl : ol[i]?.bind (fun r => r[0]?) = some L)
    (hvalid : ∀ idx ∈ cand.take L, idx < pl.length) :
    (convert_to_phonemes i bm ol pl).map convert_to_string =
      some (convert_to_string ((cand.take L).map (fun idx => pl.getD idx ""))) ∧
    (convert_to_phonemes 0 [[[0, 1, 2]]] [[3]] ["A", "B", "C"]).map
        convert_to_string = some "ABC" := by
  constructor
  · rw [convert_to_phonemes_eq, hb, hl]
    simp only [Option.some_bind]
    rw [mapOpt_eq_some_map (fun idx => pl[idx]?) (fun idx => pl.getD idx "")
      (cand.take L) (fun idx hidx => by
        show pl[idx]? = some (pl.getD idx "")
        rw [List.getElem?_eq_getElem (hvalid idx hidx),
          List.getD_eq_getElem pl "" (hvalid idx hidx)])]
    rfl
  · decide

theorem symbol_conversion_concatenates_witness :
    (convert_to_phonemes 0 [[[1, 0]]] [[2]] ["X", "Y"]).map convert_to_string =
      some (convert_to_string ((([1, 0] : List Nat).take 2).map
        (fun idx => (["X", "Y"] : List String).getD idx ""))) ∧
    (convert_to_phonemes 0 [[[0, 1, 2]]] [[3]] ["A", "B", "C"]).map
        convert_to_string = some "ABC" :=
  symbol_conversion_concatenates 0 [[[1, 0]]] [[2]] ["X", "Y"] [1, 0] 2
    (by decide) (by decide) (by decide)

/-- Claim C4: for every batch element and its top beam with reported
output length `L`, the decoded symbol count never exceeds `L` and equals
`L` whenever the stored candidate sequence has at least `L` entries; the
same holds for the decoded string's character length whenever the
phoneme map's symbols are single characters. -/
theorem decoded_length_invariant (i : Nat) (bm : List (List (List Nat)))
    (ol : List (List Nat)) (pl : List String) (cand : List Nat) (L : Nat)
    (syms : List String)
    (hb : bm[i]?.bind (fun r => r[0]?) = some cand)
    (hl : ol[i]?.bind (fun r => r[0]?) = some L)
    (h : convert_to_phonemes i bm ol pl = some syms) :
    syms.length ≤ L ∧ (L ≤ cand.length → syms.length = L) ∧
      ((∀ s ∈ pl, s.length = 1) →
        (convert_to_string syms).length ≤ L ∧
          (L ≤ cand.length → (convert_to_string syms).length = L)) := by
  rw [convert_to_phonemes_eq, hb, hl] at h
  simp only [Option.some_bind] at h
  have hlen : syms.length = (cand.take L).length :=
    mapOpt_some_length _ _ _ h
  rw [List.length_take] at hlen
  have hone : (∀ s ∈ pl, s.length = 1) →
      (convert_to_string syms).length = syms.length := by
    intro hpl
    rw [convert_to_string_length]
    refine sum_map_length_one syms (fun s hs => ?_)
    rcases mapOpt_mem _ _ _ h s hs with ⟨idx, _, hidx⟩
    exact hpl s (List.getElem?_mem hidx)
  refine ⟨by omega, fun hL => by omega, fun hpl => ?_⟩
  rw [hone hpl]
  exact ⟨by omega, fun hL => by omega⟩

theorem decoded_length_invariant_witness :
    (["A"] : List String).length ≤ 1 ∧
      (1 ≤ ([0, 1] : List Nat).length → (["A"] : List String).length = 1) ∧
      ((∀ s ∈ (["A", "B"] : List String), s.length = 1) →
        (convert_to_string ["A"]).length ≤ 1 ∧
          (1 ≤ ([0, 1] : List Nat).length →
            (convert_to_string ["A"]).length = 1)) :=
  decoded_length_invariant 0 [[[0, 1]]] [[1]] ["A", "B"] [0, 1] 1 ["A"]
    (by decide) (by decide) (by decide)

/-- Claim C5: the symbol conversion fails with an out-of-range error if
and only if some index within the truncated candidate sequence is not a
valid index into the phoneme map; otherwise it returns a decoded
string. -/
theorem symbol_conversion_failure_iff (i : Nat) (bm : List (List (List Nat)))
    (ol : List (List Nat)) (pl : List String) (cand : List Nat) (L : Nat)
    (hb : bm[i]?.bind (fun r => r[0]?) = some cand)
    (hl : ol[i]?.bind (fun r => r[0]?) = some L) :
    (convert_to_phonemes i bm ol pl = none ↔
      ∃ idx ∈ cand.take L, pl.length ≤ idx) ∧
    (convert_to_phonemes i bm ol pl ≠ none →
      ∃ s, (convert_to_phonemes i bm ol pl).map convert_to_string = some s) := by
  rw [convert_to_phonemes_eq, hb, hl]
  simp only [Option.some_bind]
  constructor
  · rw [mapOpt_eq_none_iff]
    constructor
    · rintro ⟨idx, hidx, hnone⟩
      exact ⟨idx, hidx, List.getElem?_eq_none_iff.mp hnone⟩
    · rintro ⟨idx, hidx, hge⟩
      exact ⟨idx, hidx, List.getElem?_eq_none_iff.mpr hge⟩
  · intro hne
    cases hm : mapOpt (fun idx => pl[idx]?) (cand.take L) with
    | none => exact absurd hm hne
    | some syms => exact ⟨convert_to_string syms, rfl⟩

theorem symbol_conversion_failure_iff_witness :
    (convert_to_phonemes 0 [[[5]]] [[1]] ["A"] = none ↔
      ∃ idx ∈ ([5] : List Nat).take 1, (["A"] : List String).length ≤ idx) ∧
    (convert_to_phonemes 0 [[[5]]] [[1]] ["A"] ≠ none →
      ∃ s, (convert_to_phonemes 0 [[[5]]] [[1]] ["A"]).map convert_to_string =
        some s) :=
  symbol_conversion_failure_iff 0 [[[5]]] [[1]] ["A"] [5] 1
    (by decide) (by decide)

/-- Claim C1: for every batch of beam results, reported output lengths
and target index sequences whose decode and target conversions succeed,
`calculate_distances` returns the integer sum, over all batch elements
`i`, of the Levenshtein edit distance (the minimum number of
single-character insertions, deletions and substitutions, here written
as the least cost of an edit alignment `Tr`) between the decoded string
of element `i`'s top-ranked beam and the string obtained from element
`i`'s target indices. -/
theorem calculate_distances_sums_min_edit_distances
    (bm : List (List (List Nat))) (ol : List (List Nat))
    (tg : List (List Nat)) (pl : List String)
    (h : ∀ i < bm.length,
      (convert_to_phonemes i bm ol pl).isSome ∧
        ((tg[i]?).bind (fun t => target_to_phonemes t pl)).isSome) :
    calculate_distances bm ol tg pl =
      some (((List.range bm.length).map (fun i =>
        sInf {n | Tr
          (convert_to_string ((convert_to_phonemes i bm ol pl).getD [])).data
          (convert_to_string
            (((tg[i]?).bind (fun t => target_to_phonemes t pl)).getD [])).data
          n})).sum) := by
  have hmap : mapOpt (fun i =>
      (convert_to_phonemes i bm ol pl).bind fun out_converted =>
        (tg[i]?).bind fun target_i =>
          (target_to_phonemes target_i pl).bind fun target_converted =>
            some (distance (convert_to_string out_converted)
              (convert_to_string target_converted))) (List.range bm.length) =
      some ((List.range bm.length).map (fun i =>
        distance (convert_to_string ((convert_to_phonemes i bm ol pl).getD []))
          (convert_to_string
            (((tg[i]?).bind (fun t => target_to_phonemes t pl)).getD [])))) := by
    apply mapOpt_eq_some_map
    intro i hi
    rcases h i (List.mem_range.mp hi) with ⟨h1, h2⟩
    rcases Option.isSome_iff_exists.mp h1 with ⟨oc, hoc⟩
    cases htg : tg[i]? with
    | none => rw [htg, Option.none_bind] at h2; cases h2
    | some ti =>
      rw [htg, Option.some_bind] at h2
      rcases Option.isSome_iff_exists.mp h2 with ⟨tc, htc⟩
      show (convert_to_phonemes i bm ol pl).bind _ = _
      rw [hoc]
      simp only [Option.some_bind]
      rw [htc]
      simp only [Option.some_bind, Option.getD_some]
  dsimp only [calculate_distances]
  rw [hmap]
  simp only [Option.some_bind, distance, lev_eq_sInf]

theorem calculate_distances_sums_min_edit_distances_witness :
    calculate_distances [[[0, 1]]] [[2]] [[0, 2]] ["A", "B", "C"] =
      some (((List.range 1).map (fun i =>
        sInf {n | Tr
          (convert_to_string
            ((convert_to_phonemes i [[[0, 1]]] [[2]] ["A", "B", "C"]).getD
              [])).data
          (convert_to_string
            ((((([[0, 2]] : List (List Nat)))[i]?).bind
              (fun t => target_to_phonemes t ["A", "B", "C"])).getD [])).data
          n})).sum) :=
  calculate_distances_sums_min_edit_distances [[[0, 1]]] [[2]] [[0, 2]]
    ["A", "B", "C"] (by decide)

/-- Claim C7: both the scoring path (`calculate_distances`) and the
test-output path use only the candidate at beam index `j = 0` per batch
element: replacing the beam results and output lengths by any others
that agree on every element's top beam (`[i][0]`) leaves the computed
distance total and the emitted decoded strings unchanged, so beams at
`j > 0` never influence either. -/
theorem only_top_beam_used (bm bm' : List (List (List Nat)))
    (ol ol' : List (List Nat)) (tg : List (List Nat)) (pl pm : List String)
    (hlen : bm'.length = bm.length)
    (h0 : ∀ i < bm.length,
      bm[i]?.bind (fun r => r[0]?) = bm'[i]?.bind (fun r => r[0]?))
    (hl0 : ∀ i < bm.length,
      ol[i]?.bind (fun r => r[0]?) = ol'[i]?.bind (fun r => r[0]?)) :
    calculate_distances bm ol tg pl = calculate_distances bm' ol' tg pl ∧
      test_model_strings bm ol pm = test_model_strings bm' ol' pm := by
  have hconv : ∀ i < bm.length, ∀ p : List String,
      convert_to_phonemes i bm ol p = convert_to_phonemes i bm' ol' p := by
    intro i hi p
    rw [convert_to_phonemes_eq, convert_to_phonemes_eq, h0 i hi, hl0 i hi]
  constructor
  · dsimp only [calculate_distances]
    rw [hlen]
    have heq := mapOpt_congr
      (fun i =>
        (convert_to_phonemes i bm ol pl).bind fun out_converted =>
          (tg[i]?).bind fun target_i =>
            (target_to_phonemes target_i pl).bind fun target_converted =>
              some (distance (convert_to_string out_converted)
                (convert_to_string target_converted)))
      (fun i =>
        (convert_to_phonemes i bm' ol' pl).bind fun out_converted =>
          (tg[i]?).bind fun target_i =>
            (target_to_phonemes target_i pl).bind fun target_converted =>
              some (distance (convert_to_string out_converted)
                (convert_to_string target_converted)))
      (List.range bm.length)
      (fun i hi => by dsimp only; rw [hconv i (List.mem_range.mp hi) pl])
    rw [heq]
  · dsimp only [test_model_strings, out_to_phonemes]
    rw [hlen]
    exact mapOpt_congr _ _ (List.range bm.length)
      (fun i hi => by simp only [hconv i (List.mem_range.mp hi) pm])

theorem only_top_beam_used_witness :
    calculate_distances [[[0], [1]]] [[1, 1]] [[0]] ["A", "B", "C", "D"] =
        calculate_distances [[[0], [2], [3]]] [[1, 5]] [[0]]
          ["A", "B", "C", "D"] ∧
      test_model_strings [[[0], [1]]] [[1, 1]] ["A", "B", "C", "D"] =
        test_model_strings [[[0], [2], [3]]] [[1, 5]] ["A", "B", "C", "D"] :=
  only_top_beam_used [[[0], [1]]] [[[0], [2], [3]]] [[1, 1]] [[1, 5]] [[0]]
    ["A", "B", "C", "D"] ["A", "B", "C", "D"]
    (by decide) (by decide) (by decide)

/-- Claim C8: the target string for a batch element is built from every
index stored in the target row — appended padding indices are mapped to
symbols and extend the target string instead of being dropped (no target
length is consulted) — and this changes the metric: with phoneme map
`["A","B"]`, a decoded top beam `"A"`, and target row `[0,1,1]` whose
true content is the prefix `[0]`, `calculate_distances` counts the two
padding indices and returns 2 where the truncated row would give 0. -/
theorem target_row_not_truncated :
    (∀ (t pad : List Nat) (pl : List String),
      target_to_phonemes (t ++ pad) pl =
        (target_to_phonemes t pl).bind fun a =>
          (target_to_phonemes pad pl).bind fun b => some (a ++ b)) ∧
    calculate_distances [[[0]]] [[1]] [[0, 1, 1]] ["A", "B"] = some 2 ∧
    calculate_distances [[[0]]] [[1]] [[0]] ["A", "B"] = some 0 := by
  refine ⟨fun t pad pl => ?_, by decide, by decide⟩
  dsimp only [target_to_phonemes]
  exact mapOpt_append _ t pad

/-- Claim C9: the batch edit-distance score is symmetric on singleton
batches — `score [a] [b] = score [b] [a]` — and `score [x] [x] = 0` for
every string `x`. -/
theorem score_symmetric_and_self_zero (a b x : String) :
    score [a] [b] = score [b] [a] ∧ score [x] [x] = 0 := by
  constructor
  · show (List.zipWith (fun a b => distance a b) [a] [b]).sum =
      (List.zipWith (fun a b => distance a b) [b] [a]).sum
    simp only [List.zipWith_cons_cons, List.zipWith_nil_right,
      List.sum_cons, List.sum_nil]
    show lev a.data b.data + 0 = lev b.data a.data + 0
    rw [lev_symm a.data b.data]
  · show (List.zipWith (fun a b => distance a b) [x] [x]).sum = 0
    simp only [List.zipWith_cons_cons, List.zipWith_nil_right,
      List.sum_cons, List.sum_nil]
    show lev x.data x.data + 0 = 0
    rw [lev_self x.data]

/-- Claim C6: `decode_output` transposes the frames from
(time, batch, classes) to (batch, time, classes) — the transposed tensor
has the swapped dimensions and its entry at (b, t, c) is the input's
entry at (t, b, c) — passes the transposed tensor to the decoder's
single `decode` call, and returns the decoder's four results unchanged;
the input frames are not mutated (the transposition is a lossless view:
transposing twice restores the input). -/
theorem decode_output_transposes {α σ : Type} (out : Tensor3 α)
    (d : CTCDecoder α σ) :
    decode_output out d = d.decode (torch_transpose01 out) ∧
      (torch_transpose01 out).dim0 = out.dim1 ∧
      (torch_transpose01 out).dim1 = out.dim0 ∧
      (torch_transpose01 out).dim2 = out.dim2 ∧
      (∀ b t c, (torch_transpose01 out).entry b t c = out.entry t b c) ∧
      torch_transpose01 (torch_transpose01 out) = out :=
  ⟨rfl, rfl, rfl, rfl, fun _ _ _ => rfl, rfl⟩

/-- Claim C10: for every construction of `CTCDecodeHandler`, the worker
pool size (`num_processes`) stored by the handler and passed to the beam
search decoder equals the host's processing-unit count reported by
`multiprocessing.cpu_count()`, regardless of the other configuration
parameters. -/
theorem num_processes_is_cpu_count {F : Type} (cpu_count : Nat)
    (PHONEME_MAP : List String) (model_path : String) (alpha beta : F)
    (cutoff_top_n : Nat) (cutoff_prob : F) (beam_width blank_id : Nat)
    (log_probs_input : Bool) :
    (CTCDecodeHandler.init cpu_count PHONEME_MAP model_path alpha beta
        cutoff_top_n cutoff_prob beam_width blank_id
        log_probs_input).num_processes = cpu_count ∧
      ((CTCDecodeHandler.init cpu_count PHONEME_MAP model_path alpha beta
          cutoff_top_n cutoff_prob beam_width blank_id
          log_probs_input).ctcdecoder).num_processes = cpu_count :=
  ⟨rfl, rfl⟩

/-- Claim C3: `Evaluation.evaluate_model`'s decode-and-score step cannot
produce a metric: phases.py imports `out_to_phonemes` from
`customized.helper`, which helper.py does not define, and it calls
`decode_output` with three arguments although `decode_output` accepts
exactly two. -/
theorem evaluate_model_decode_step_errors :
    "out_to_phonemes" ∈ phases_imported_from_helper ∧
      "out_to_phonemes" ∉ helper_defined_names ∧
      evaluate_model_decode_output_arg_count = 3 ∧
      decode_output_param_count = 2 ∧
      evaluate_model_decode_output_arg_count ≠ decode_output_param_count := by
  decide
